import Mathlib

/-!
Verification of the agent-spaces run executor, policy engine, sandbox
filesystem operations and protocol validation.  Each definition in this
file is a shallow embedding of a function of the TypeScript source tree;
the doc comment of every definition names the source file and symbol it
embeds.  JavaScript strings are modelled as Lean `String`s (sequences of
characters; the UTF-16 subtleties of JavaScript are irrelevant to every
claim checked here and are noted where they could in principle matter).
Timestamps (`new Date().toISOString()`) are omitted from events: no claim
mentions them.
-/

namespace AgentSpaces

/-- Content encoding accepted by the protocol (`'utf-8' | 'base64'` in
`packages/protocol/src/operations/types.ts`). -/
inductive Encoding
  | utf8
  | base64
deriving Repr, DecidableEq

/-- A single edit of an `editFile` operation
(`FileEdit` in `packages/protocol/src/operations/types.ts`). -/
structure FileEdit where
  oldContent : String
  newContent : String
deriving Repr, DecidableEq

/-- The six operation variants of the protocol
(`Operation` in `packages/protocol/src/operations/types.ts`).  Validated
operations carry the zod defaults (`encoding = utf8`, `overwrite = false`),
so those two fields are non-optional here; `id`, `cwd`, `timeout` and `env`
stay optional as in the source. -/
inductive Operation
  | message (id : Option String) (content : String)
  | createFile (id : Option String) (path : String) (content : String)
      (encoding : Encoding) (overwrite : Bool)
  | readFile (id : Option String) (path : String) (encoding : Encoding)
  | editFile (id : Option String) (path : String) (edits : List FileEdit)
  | deleteFile (id : Option String) (path : String)
  | shell (id : Option String) (command : String) (cwd : Option String)
      (timeout : Option Int) (env : List (String × String))
deriving Repr, DecidableEq

/-- The optional correlation id of an operation (field `id` of
`BaseOperation`). -/
def Operation.opId : Operation → Option String
  | .message i _ => i
  | .createFile i _ _ _ _ => i
  | .readFile i _ _ => i
  | .editFile i _ _ => i
  | .deleteFile i _ => i
  | .shell i _ _ _ _ => i

/-- The `type` tag of an operation, as the string the source stores in
events (`operation.type`). -/
def Operation.typeName : Operation → String
  | .message .. => "message"
  | .createFile .. => "createFile"
  | .readFile .. => "readFile"
  | .editFile .. => "editFile"
  | .deleteFile .. => "deleteFile"
  | .shell .. => "shell"

/-- Result of a policy evaluation (`PolicyEvaluation` in
`packages/policy/src/types.ts`): `allowed`, `requiresApproval`, and the
optional `reason`, `suggestion` and triggering `policy` tag. -/
structure PolicyEvaluation where
  allowed : Bool
  requiresApproval : Bool
  reason : Option String := none
  suggestion : Option String := none
  policy : Option String := none
deriving Repr, DecidableEq

/-- Shell policy configuration (`ShellPolicy` in
`packages/policy/src/types.ts`).  `timeout` is an `Int` so that the model
covers every JavaScript number input relevant to the claims. -/
structure ShellPolicy where
  enabled : Bool
  allowedCommands : Option (List String) := none
  blockedPatterns : Option (List String) := none
  timeout : Int
  approvalRequired : Option (List String) := none
deriving Repr, DecidableEq

/-- Filesystem policy configuration (`FilesystemPolicy` in
`packages/policy/src/types.ts`). -/
structure FilesystemPolicy where
  enabled : Bool
  readOnly : Bool
  maxFileSize : Nat
  allowedPaths : Option (List String) := none
  blockedPaths : Option (List String) := none
deriving Repr, DecidableEq

/-- Network policy configuration (`NetworkPolicy` in
`packages/policy/src/types.ts`). -/
structure NetworkPolicy where
  enabled : Bool
  allowedDomains : Option (List String) := none
  blockedDomains : Option (List String) := none
deriving Repr, DecidableEq

/-- A resolved policy (`Policy` in `packages/policy/src/types.ts`). -/
structure Policy where
  name : String
  description : String
  filesystem : FilesystemPolicy
  shell : ShellPolicy
  network : NetworkPolicy
deriving Repr, DecidableEq

/-- Helper: does `needle` occur as a contiguous sublist of the haystack. -/
def listContainsSub (needle : List Char) : List Char → Bool
  | [] => needle.isEmpty
  | c :: t => needle.isPrefixOf (c :: t) || listContainsSub needle t

/-- JavaScript `haystack.includes(needle)`: substring containment. -/
def strContains (haystack needle : String) : Bool :=
  listContainsSub needle.toList haystack.toList

/-- Whitespace characters stripped by JavaScript `String.prototype.trim`
(the ASCII ones; the exotic Unicode space characters JavaScript also
strips cannot occur in any claim checked here). -/
def isJsWhitespace (c : Char) : Bool :=
  c = ' ' || c = '\t' || c = '\n' || c = '\r' || c = '\x0b' || c = '\x0c'

/-- JavaScript `command.trim()` restricted to the whitespace characters of
`isJsWhitespace`. -/
def jsTrim (s : String) : String :=
  ⟨(s.toList.dropWhile isJsWhitespace).reverse.dropWhile isJsWhitespace |>.reverse⟩

/-- Embeds `extractBaseCommand` of `packages/policy/src/rules/shell.ts`:
trim the command, then take the substring up to the first ASCII space
(`indexOf(' ')` / `substring`), i.e. the longest space-free prefix. -/
def extractBaseCommand (command : String) : String :=
  ⟨(jsTrim command).toList.takeWhile (· ≠ ' ')⟩

/-- Embeds `matchesAnyPattern` of `packages/policy/src/rules/shell.ts`:
`patterns.some((pattern) => command.includes(pattern))`. -/
def shellMatchesAnyPattern (command : String) (patterns : List String) : Bool :=
  patterns.any (fun pattern => strContains command pattern)

/-- Embeds `evaluateShellPolicy` of `packages/policy/src/rules/shell.ts`:
enabled check, then blocked patterns (substring), then the allowlist
(exact match of the base token), then approval patterns (substring),
else allow.  An absent (`undefined`) pattern list skips its check, as does
a present-but-empty one (`matchesAnyPattern` on `[]` is `false`, and the
allowlist branch requires `length > 0`). -/
def evaluateShellPolicy (policy : ShellPolicy) (command : String) :
    PolicyEvaluation :=
  if policy.enabled = false then
    { allowed := false, requiresApproval := false,
      reason := some "Shell execution is disabled",
      suggestion := some "Use a policy that allows shell execution",
      policy := some "shell.enabled" }
  else if (policy.blockedPatterns.map
      (shellMatchesAnyPattern command)).getD false then
    { allowed := false, requiresApproval := false,
      reason := some "Command contains blocked pattern",
      policy := some "shell.blockedPatterns" }
  else if ((policy.allowedCommands.map (fun cmds =>
        cmds.length > 0 && !(cmds.contains (extractBaseCommand command))))).getD
      false then
    { allowed := false, requiresApproval := false,
      reason := some ("Command \"" ++ extractBaseCommand command ++
        "\" is not in allowed commands"),
      suggestion := some ("Allowed commands: " ++
        String.intercalate ", " ((policy.allowedCommands).getD [])),
      policy := some "shell.allowedCommands" }
  else if (policy.approvalRequired.map
      (shellMatchesAnyPattern command)).getD false then
    { allowed := true, requiresApproval := true,
      reason := some "Command requires approval",
      policy := some "shell.approvalRequired" }
  else
    { allowed := true, requiresApproval := false }

/-- Embeds `getShellTimeout` of `packages/policy/src/rules/shell.ts`:
`if (requestedTimeout && requestedTimeout < policy.timeout) return
requestedTimeout; return policy.timeout;`.  JavaScript truthiness of a
number is `≠ 0` (`NaN` has no counterpart in this model). -/
def getShellTimeout (policy : ShellPolicy) (requestedTimeout : Option Int) :
    Int :=
  match requestedTimeout with
  | some t => if t ≠ 0 ∧ t < policy.timeout then t else policy.timeout
  | none => policy.timeout

/-- The three-way outcome of a shell policy evaluation, used to compare
the implementation with the specification's description. -/
inductive ShellVerdict
  | deny (tag : String)
  | requireApproval (tag : String)
  | allow
deriving Repr, DecidableEq

/-- Projection of a `PolicyEvaluation` onto its three-way verdict and
triggering policy tag. -/
def PolicyEvaluation.verdict (e : PolicyEvaluation) : ShellVerdict :=
  if e.allowed then
    if e.requiresApproval then .requireApproval (e.policy.getD "")
    else .allow
  else .deny (e.policy.getD "")

/-- Specification-side description of shell policy evaluation, written
from the claim's words: a disabled shell denies with tag `shell.enabled`;
otherwise any blocked pattern occurring as a substring of the raw command
denies with tag `shell.blockedPatterns` (checked before the allowlist);
otherwise, when the allowlist is non-empty, the base token must equal some
entry, else deny with tag `shell.allowedCommands`; otherwise any approval
pattern occurring as a substring yields `requireApproval` with tag
`shell.approvalRequired`; otherwise allow. -/
def shellSpecVerdict (policy : ShellPolicy) (command : String) :
    ShellVerdict :=
  if policy.enabled = false then
    .deny "shell.enabled"
  else if (policy.blockedPatterns.getD []).any
      (fun p => strContains command p) then
    .deny "shell.blockedPatterns"
  else if !(policy.allowedCommands.getD []).isEmpty &&
      !(policy.allowedCommands.getD []).contains
        (extractBaseCommand command) then
    .deny "shell.allowedCommands"
  else if (policy.approvalRequired.getD []).any
      (fun p => strContains command p) then
    .requireApproval "shell.approvalRequired"
  else
    .allow

/-- The characters escaped by `matchesPattern` of
`packages/policy/src/rules/filesystem.ts` (the regex class
`[.+^$\x7b\x7d()|[\]\\]` of its first `replace`).  Note that `?` is not in
this set, and `*` is deliberately left for the second `replace`. -/
def escapedRegexChars : List Char :=
  ['.', '+', '^', '$', '\x7b', '\x7d', '(', ')', '|', '[', ']', '\\']

/-- Embeds the regex-source construction of `matchesPattern` in
`packages/policy/src/rules/filesystem.ts`:
`pattern.replace(/[.+^$\x7b\x7d()|[\]\\]/g, '\\$&').replace(/\*/g, '.*')`.
The first pass escapes each character of `escapedRegexChars` and the
second rewrites each `*` (never produced by the first pass) to `.*`, so
the composition maps each pattern character independently: an escaped
character to backslash-plus-itself, `*` to `.*`, anything else (including
`?`) to itself. -/
def regexPatternChars : List Char → List Char
  | [] => []
  | c :: rest =>
    (if escapedRegexChars.contains c then ['\\', c]
     else if c = '*' then ['.', '*'] else [c]) ++ regexPatternChars rest

/-- Tokens of the tiny fragment of JavaScript regular expressions that
`regexPatternChars` can produce: escaped or plain literal characters,
optionally carrying a `?` quantifier (greedy `c?` or lazy `c??`), and the
`.​*` / `.*?` wildcard.  Greedy and lazy forms accept the same language
but differ for the purpose of a further quantifier being a syntax
error. -/
inductive CTok
  | lit (c : Char)
  | opt (c : Char)
  | optLazy (c : Char)
  | star
  | starLazy
deriving Repr, DecidableEq

/-- Applying a `?` quantifier to the preceding token, as JavaScript regex
syntax does: a literal becomes optional, a greedy quantifier becomes
lazy, and a `?` after a lazy quantifier is a syntax error (`none`,
"nothing to repeat"). -/
def CTok.applyQuestion : CTok → Option CTok
  | .lit c => some (.opt c)
  | .opt c => some (.optLazy c)
  | .optLazy _ => none
  | .star => some .starLazy
  | .starLazy => none

/-- Parser for the regex texts produced by `regexPatternChars`, accumulating
tokens in reverse.  `none` is a JavaScript `SyntaxError` thrown by
`new RegExp`: a `?` with nothing before it, or a `?` after a lazy
quantifier.  A bare `.` not followed by `*`, a bare `*`, or a trailing
backslash cannot occur in the output of `regexPatternChars` (every `.` and
`*` of that output comes from the `*→.*` rewrite, and every backslash is
followed by the character it escapes); those arms also return `none`. -/
def parseRegexAux : List Char → List CTok → Option (List CTok)
  | [], acc => some acc.reverse
  | c :: rest, acc =>
    if c = '\\' then
      match rest with
      | [] => none
      | d :: rest' => parseRegexAux rest' (.lit d :: acc)
    else if c = '.' then
      match rest with
      | [] => none
      | d :: rest' =>
        if d = '*' then parseRegexAux rest' (.star :: acc) else none
    else if c = '?' then
      match acc with
      | [] => none
      | tok :: acc' =>
        match tok.applyQuestion with
        | none => none
        | some t => parseRegexAux rest (t :: acc')
    else if c = '*' then none
    else parseRegexAux rest (.lit c :: acc)

/-- JavaScript line terminators, which `.` does not match (the regex is
built without the `s` flag). -/
def isLineTerminator (c : Char) : Bool :=
  c = '\n' || c = '\r' || c = '\u2028' || c = '\u2029'

/-- Whether the token list matches the whole character list, i.e. the
anchored test `new RegExp('^' + source + '$').test(path)`: without the
`m` flag, `^` and `$` anchor at the very start and end of the input.
Lazy and greedy forms accept the same strings, so they share semantics
here. -/
def rmatch : List CTok → List Char → Bool
  | [], s => s.isEmpty
  | .lit _ :: _, [] => false
  | .lit c :: ts, x :: xs => c = x && rmatch ts xs
  | .opt c :: ts, s =>
    rmatch ts s ||
      (match s with
       | [] => false
       | x :: xs => c = x && rmatch ts xs)
  | .optLazy c :: ts, s =>
    rmatch ts s ||
      (match s with
       | [] => false
       | x :: xs => c = x && rmatch ts xs)
  | .star :: ts, s =>
    rmatch ts s ||
      (match s with
       | [] => false
       | x :: xs => !isLineTerminator x && rmatch (.star :: ts) xs)
  | .starLazy :: ts, s =>
    rmatch ts s ||
      (match s with
       | [] => false
       | x :: xs => !isLineTerminator x && rmatch (.starLazy :: ts) xs)
termination_by ts s => (s.length, ts.length)

/-- Embeds `matchesPattern` of `packages/policy/src/rules/filesystem.ts`.
`none` models the `SyntaxError` thrown by `new RegExp` on a malformed
pattern (e.g. a leading `?`); `some b` is the result of the anchored
`regex.test(path)`. -/
def matchesPattern (path pattern : String) : Option Bool :=
  (parseRegexAux (regexPatternChars pattern.toList) []).map
    (fun ts => rmatch ts path.toList)

/-- Specification-side glob semantics, written from the claim's words:
`*` matches any run of characters and every other pattern character is
matched literally, against the whole path. -/
def globMatch : List Char → List Char → Bool
  | [], s => s.isEmpty
  | p :: ps, s =>
    if p = '*' then
      globMatch ps s ||
        (match s with
         | [] => false
         | _ :: xs => globMatch (p :: ps) xs)
    else
      match s with
      | [] => false
      | x :: xs => p = x && globMatch ps xs
termination_by ps s => (s.length, ps.length)

/-- Embeds `matchesAnyPattern` of `packages/policy/src/rules/filesystem.ts`:
`patterns.some((pattern) => matchesPattern(path, pattern))`.  `Array.some`
short-circuits, so an exception from a later pattern is not reached once
an earlier one matches. -/
def fsMatchesAnyPattern (path : String) : List String → Option Bool
  | [] => some false
  | p :: ps =>
    match matchesPattern path p with
    | none => none
    | some true => some true
    | some false => fsMatchesAnyPattern path ps

/-- The allowed-paths tail of `evaluateFilesystemPolicy` (split out only
so each definition stays structurally small; the source is one
function). -/
def evaluateFilesystemPolicyAllowed (policy : FilesystemPolicy)
    (path : String) : Option PolicyEvaluation :=
  match policy.allowedPaths with
  | some ps =>
    if ps.length > 0 then
      match fsMatchesAnyPattern path ps with
      | none => none
      | some true => some { allowed := true, requiresApproval := false }
      | some false =>
        some { allowed := false, requiresApproval := false,
               reason := some ("Path \"" ++ path ++
                 "\" is not in allowed paths"),
               policy := some "filesystem.allowedPaths" }
    else some { allowed := true, requiresApproval := false }
  | none => some { allowed := true, requiresApproval := false }

/-- Embeds `evaluateFilesystemPolicy` of
`packages/policy/src/rules/filesystem.ts`: enabled check, read-only check
for writes, blocked paths, then allowed paths (when non-empty, the path
must match one), else allow.  `none` propagates a pattern-compilation
exception. -/
def evaluateFilesystemPolicy (policy : FilesystemPolicy) (path : String)
    (isWrite : Bool) : Option PolicyEvaluation :=
  if policy.enabled = false then
    some { allowed := false, requiresApproval := false,
           reason := some "Filesystem access is disabled",
           policy := some "filesystem.enabled" }
  else if isWrite && policy.readOnly then
    some { allowed := false, requiresApproval := false,
           reason := some "Filesystem is read-only",
           suggestion := some "Use a policy that allows write access",
           policy := some "filesystem.readOnly" }
  else
    match policy.blockedPaths with
    | some ps =>
      match fsMatchesAnyPattern path ps with
      | none => none
      | some true =>
        some { allowed := false, requiresApproval := false,
               reason := some ("Path \"" ++ path ++ "\" is blocked by policy"),
               policy := some "filesystem.blockedPaths" }
      | some false => evaluateFilesystemPolicyAllowed policy path
    | none => evaluateFilesystemPolicyAllowed policy path

/-- Embeds `evaluateFileSize` of
`packages/policy/src/rules/filesystem.ts`. -/
def evaluateFileSize (policy : FilesystemPolicy) (size : Nat) :
    PolicyEvaluation :=
  if size > policy.maxFileSize then
    { allowed := false, requiresApproval := false,
      reason := some ("File size (" ++ toString size ++
        " bytes) exceeds limit (" ++ toString policy.maxFileSize ++
        " bytes)"),
      policy := some "filesystem.maxFileSize" }
  else { allowed := true, requiresApproval := false }

/-- Embeds `PolicyEngine.evaluate` of `packages/policy/src/engine.ts`
(with its private helpers `evaluateCreateFile`, `evaluateReadFile`,
`evaluateEditFile`, `evaluateDeleteFile`, `evaluateShell` inlined):
`message` is always allowed; `createFile` checks the filesystem policy
for a write and then the content size (`content.length`); `readFile`
checks a read; `editFile` and `deleteFile` check a write; `shell`
evaluates the shell policy.  `none` propagates a pattern-compilation
exception from the filesystem rules. -/
def evaluate (p : Policy) (op : Operation) : Option PolicyEvaluation :=
  match op with
  | .message _ _ => some { allowed := true, requiresApproval := false }
  | .createFile _ path content _ _ =>
    match evaluateFilesystemPolicy p.filesystem path true with
    | none => none
    | some pathEval =>
      if pathEval.allowed = false then some pathEval
      else
        let sizeEval := evaluateFileSize p.filesystem content.length
        if sizeEval.allowed = false then some sizeEval
        else some { allowed := true, requiresApproval := false }
  | .readFile _ path _ => evaluateFilesystemPolicy p.filesystem path false
  | .editFile _ path _ => evaluateFilesystemPolicy p.filesystem path true
  | .deleteFile _ path => evaluateFilesystemPolicy p.filesystem path true
  | .shell _ command _ _ _ => some (evaluateShellPolicy p.shell command)

/-- Result of a sandbox filesystem primitive (`FileResult` in
`packages/sandbox/src/types.ts`, plus the `editsApplied` extension of
`editFile`). -/
structure FileResult where
  success : Bool
  path : String
  content : Option String := none
  size : Option Nat := none
  editsApplied : Option Nat := none
  error : Option String := none
deriving Repr, DecidableEq

/-- Result of the sandbox `exec` primitive (`ExecResult` in
`packages/sandbox/src/types.ts`). -/
structure ExecResult where
  success : Bool
  exitCode : Option Int := none
  stdout : Option String := none
  stderr : Option String := none
  durationMs : Option Nat := none
  timedOut : Option Bool := none
deriving Repr, DecidableEq

/-- Details attached to an `approvalRequired` event and to
`pendingApproval` (built in `executeRun`, `packages/core`): the
triggering policy tag, plus the command for shell operations or the path
for filesystem operations. -/
structure ApprovalDetails where
  policy : Option String := none
  command : Option String := none
  path : Option String := none
deriving Repr, DecidableEq

/-- The event variants produced by the run executor (`Event` in
`packages/protocol/src/events/types.ts`), without timestamps. -/
inductive Event
  | message (operationId : Option String) (success : Bool)
  | createFile (operationId : Option String) (path : String) (success : Bool)
      (bytesWritten : Option Nat) (error : Option String)
  | readFile (operationId : Option String) (path : String) (success : Bool)
      (content : Option String) (encoding : Encoding) (size : Option Nat)
      (error : Option String)
  | editFile (operationId : Option String) (path : String) (success : Bool)
      (editsApplied : Option Nat) (error : Option String)
  | deleteFile (operationId : Option String) (path : String) (success : Bool)
      (error : Option String)
  | shell (operationId : Option String) (command : String) (success : Bool)
      (exitCode : Option Int) (stdout : Option String)
      (stderr : Option String) (durationMs : Option Nat)
      (timedOut : Option Bool)
  | approvalRequired (operationId : String) (operationType : String)
      (reason : String) (details : ApprovalDetails)
  | policyDenied (operationId : Option String) (operationType : String)
      (reason : String) (suggestion : Option String)
  | error (category : String) (message : String)
deriving Repr, DecidableEq

/-- The `type` tag of an event, as serialized by the source. -/
def Event.typeName : Event → String
  | .message .. => "message"
  | .createFile .. => "createFile"
  | .readFile .. => "readFile"
  | .editFile .. => "editFile"
  | .deleteFile .. => "deleteFile"
  | .shell .. => "shell"
  | .approvalRequired .. => "approvalRequired"
  | .policyDenied .. => "policyDenied"
  | .error .. => "error"

/-- Run status (`RunStatus` in `packages/protocol`). -/
inductive RunStatus
  | running
  | completed
  | awaitingApproval
  | cancelled
  | error
deriving Repr, DecidableEq

/-- The pending approval snapshot stored when a run suspends
(`pendingApproval` in `ExecuteRunResult`, `packages/core`). -/
structure PendingApproval where
  operationId : String
  operationType : String
  reason : String
  details : ApprovalDetails
deriving Repr, DecidableEq

/-- The sandbox as seen by the executor: explicit-state versions of the
primitives of `packages/sandbox`'s `Sandbox` class.  The executor's
theorems quantify over an arbitrary sandbox model; the container-backed
behaviour itself (host filesystem, docker exec) is environment, not
repository code. -/
structure SandboxModel (σ : Type) where
  createFile : σ → String → String → Bool → Encoding → σ × FileResult
  readFile : σ → String → Encoding → σ × FileResult
  editFile : σ → String → List FileEdit → σ × FileResult
  deleteFile : σ → String → σ × FileResult
  exec : σ → String → Option String → Option Int → List (String × String) →
    σ × ExecResult

/-- Embeds `executeOperation` of the run executor
(`run.executor.ts` in `packages/core`): dispatches one operation to the
corresponding sandbox primitive and assembles the event from the result's
fields.  The source's unreachable `default` arm (the `Operation` union is
closed) has no counterpart. -/
def executeOperation (sb : SandboxModel σ) (op : Operation) (s : σ) :
    σ × Event :=
  match op with
  | .message i _ => (s, .message i true)
  | .createFile i path content enc overwrite =>
    let (s', r) := sb.createFile s path content overwrite enc
    (s', .createFile i path r.success r.size r.error)
  | .readFile i path enc =>
    let (s', r) := sb.readFile s path enc
    (s', .readFile i path r.success r.content enc r.size r.error)
  | .editFile i path edits =>
    let (s', r) := sb.editFile s path edits
    (s', .editFile i path r.success r.editsApplied r.error)
  | .deleteFile i path =>
    let (s', r) := sb.deleteFile s path
    (s', .deleteFile i path r.success r.error)
  | .shell i command cwd timeout env =>
    let (s', r) := sb.exec s command cwd timeout env
    (s', .shell i command r.success r.exitCode r.stdout r.stderr
      r.durationMs r.timedOut)

/-- The `details` object assembled for an approval suspension: the
triggering policy tag, `command` for a shell operation, `path` for an
operation that has a path. -/
def approvalDetailsOf (op : Operation) (ev : PolicyEvaluation) :
    ApprovalDetails :=
  match op with
  | .shell _ command _ _ _ => { policy := ev.policy, command := some command }
  | .createFile _ path _ _ _ => { policy := ev.policy, path := some path }
  | .readFile _ path _ => { policy := ev.policy, path := some path }
  | .editFile _ path _ => { policy := ev.policy, path := some path }
  | .deleteFile _ path => { policy := ev.policy, path := some path }
  | .message _ _ => { policy := ev.policy }

/-- JavaScript `s || fallback` for an optional string: the fallback is
used both when the value is `undefined` and when it is the (falsy) empty
string. -/
def jsOr (s : Option String) (fallback : String) : String :=
  match s with
  | none => fallback
  | some v => if v = "" then fallback else v

/-- Result of `executeRun` (`ExecuteRunResult` in `packages/core`),
extended with the final sandbox state so frame properties can be
stated. -/
structure RunResult (σ : Type) where
  events : List Event
  status : RunStatus
  pendingApproval : Option PendingApproval := none
  state : σ

/-- Embeds `executeRun` of the run executor (`run.executor.ts` in
`packages/core`), written as structural recursion over the operations
list (the source's `for` loop with `continue` / early `return`): evaluate
the policy for the head; a denial appends a `policyDenied` event and
continues; a required approval appends an `approvalRequired` event and
returns `awaiting_approval` with the pending-approval snapshot
(`operation.id || ''` is the empty string for an id-less operation);
otherwise the operation is dispatched and its event appended.  Exhaustion
yields `completed`.  `none` propagates a policy-evaluation exception. -/
def executeRun (pe : Policy) (sb : SandboxModel σ) :
    List Operation → σ → Option (RunResult σ)
  | [], s => some { events := [], status := .completed, state := s }
  | op :: rest, s =>
    match evaluate pe op with
    | none => none
    | some ev =>
      if ev.allowed = false then
        match executeRun pe sb rest s with
        | none => none
        | some r =>
          let denied := Event.policyDenied op.opId op.typeName
            (jsOr ev.reason "Operation denied by policy") ev.suggestion
          some { r with events := denied :: r.events }
      else if ev.requiresApproval then
        let reason := jsOr ev.reason "Operation requires approval"
        let details := approvalDetailsOf op ev
        some { events := [.approvalRequired (op.opId.getD "") op.typeName
                 reason details],
               status := .awaitingApproval,
               pendingApproval := some
                 { operationId := op.opId.getD "",
                   operationType := op.typeName,
                   reason := reason, details := details },
               state := s }
      else
        let (s', e) := executeOperation sb op s
        match executeRun pe sb rest s' with
        | none => none
        | some r => some { r with events := e :: r.events }

/-- A persisted run as `RunService.resume` reads it
(`run.service.ts` in `packages/core`): the submitted operations, the
accumulated events, the status and the pending-approval snapshot.
Database round-tripping and timestamps are not modelled. -/
structure Run where
  id : String
  operations : List Operation
  events : List Event
  status : RunStatus
  pendingApproval : Option PendingApproval := none
deriving Repr, DecidableEq

/-- The decision of a resume request. -/
inductive Decision
  | approved
  | denied
deriving Repr, DecidableEq

/-- The body of a resume request (`approval` argument of
`RunService.resume`). -/
structure ApprovalRequest where
  operationId : String
  decision : Decision
  reason : Option String := none
deriving Repr, DecidableEq

/-- Embeds `operations.findIndex((op) => op.id === approval.operationId)`
of `RunService.resume` together with the subsequent
`operations[pendingIndex]` access: the first operation whose (present)
id strictly equals the supplied one, with its index.  An absent id never
equals any string. -/
def findIndexById : List Operation → String → Option (Nat × Operation)
  | [], _ => none
  | op :: rest, oid =>
    if op.opId = some oid then some (0, op)
    else (findIndexById rest oid).map (fun p => (p.1 + 1, p.2))

/-- What `RunService.resume` returns: the updated run record and the
`result` object `{events: newEvents, status}`, with the final sandbox
state added. -/
structure ResumeResult (σ : Type) where
  run : Run
  newEvents : List Event
  status : RunStatus
  state : σ

/-- Embeds `RunService.resume` of `run.service.ts` in `packages/core`
(persistence reads/writes elided; the run record is passed in).  A run
not in `awaiting_approval` is rejected; the pending operation is located
by `findIndex` on the supplied operation id; `denied` appends a single
`policyDenied` event (reason `approval.reason || 'Approval denied by
user'`, `operationType = operations[pendingIndex].type`) and marks the
run completed; `approved` re-runs `executeRun` on
`operations.slice(pendingIndex)` — with no policy bypass at the pending
index — and the new events are concatenated after the stored ones.  The
outer `none` propagates an `executeRun` exception; `Except.error`
models a thrown `Error` with its message. -/
def resume (run : Run) (sb : SandboxModel σ) (pe : Policy) (s : σ)
    (approval : ApprovalRequest) :
    Option (Except String (ResumeResult σ)) :=
  if run.status ≠ .awaitingApproval then
    some (.error ("Run " ++ run.id ++ " is not awaiting approval"))
  else
    match findIndexById run.operations approval.operationId with
    | none =>
      some (.error ("Operation " ++ approval.operationId ++
        " not found in run"))
    | some (idx, pendingOp) =>
      match approval.decision with
      | .denied =>
        let newEvents := [Event.policyDenied (some approval.operationId)
          pendingOp.typeName (jsOr approval.reason "Approval denied by user")
          none]
        let updated : Run :=
          { run with
            status := .completed
            events := run.events ++ newEvents
            pendingApproval := none }
        some (.ok
          { run := updated
            newEvents := newEvents
            status := .completed
            state := s })
      | .approved =>
        match executeRun pe sb (run.operations.drop idx) s with
        | none => none
        | some r =>
          let updated : Run :=
            { run with
              status := r.status
              events := run.events ++ r.events
              pendingApproval := r.pendingApproval }
          some (.ok
            { run := updated
              newEvents := r.events
              status := r.status
              state := r.state })

/-- The `standard` policy preset
(`packages/policy/src/presets/standard.ts`). -/
def standardPolicy : Policy :=
  { name := "standard",
    description := "Balanced security and functionality",
    filesystem :=
      { enabled := true, readOnly := false,
        maxFileSize := 10 * 1024 * 1024,
        blockedPaths := some [".*", "*.env", "*.key", "*.pem",
          "node_modules"] },
    shell :=
      { enabled := true,
        allowedCommands := some ["bun", "node", "npm", "npx", "cat", "echo",
          "ls", "pwd", "head", "tail", "grep", "find", "wc"],
        blockedPatterns := some ["rm -rf /", "rm -rf ~", "sudo", "chmod",
          "chown", "curl", "wget", "ssh"],
        timeout := 30000,
        approvalRequired := some ["rm -rf", "rm -r"] },
    network := { enabled := false } }

/-- A trivial sandbox test double used only to evaluate the executor on
concrete runs whose interesting behaviour is decided by the policy
engine, never by the sandbox (the real sandbox is container-backed
environment, not repository code). -/
def stubSandbox : SandboxModel Unit where
  createFile := fun s p _ _ _ =>
    (s, { success := true, path := p, size := some 0 })
  readFile := fun s p _ =>
    (s, { success := true, path := p, content := some "", size := some 0 })
  editFile := fun s p _ =>
    (s, { success := true, path := p, editsApplied := some 0 })
  deleteFile := fun s p =>
    (s, { success := true, path := p })
  exec := fun s _ _ _ _ =>
    (s, { success := true, exitCode := some 0, stdout := some "",
          stderr := some "", durationMs := some 1, timedOut := some false })

/-- The workspace directory modelled as an association list from relative
path to file content (directories and metadata are irrelevant to the
claims about `editFile`). -/
abbrev FS := List (String × String)

/-- `existsSync` + `readFile` for the modelled workspace. -/
def fsRead (fs : FS) (path : String) : Option String :=
  (fs.find? (fun e => e.1 = path)).map (·.2)

/-- `writeFile` for the modelled workspace: replace the content of an
existing entry or append a new one. -/
def fsWrite : FS → String → String → FS
  | [], p, c => [(p, c)]
  | (q, v) :: rest, p, c =>
    if q = p then (p, c) :: rest else (q, v) :: fsWrite rest p c

/-- JavaScript `haystack.indexOf(needle)` (as an `Option` instead of
`-1`), scanning from index `i`. -/
def indexOfAux (needle : List Char) : List Char → Nat → Option Nat
  | [], i => if needle.isEmpty then some i else none
  | c :: t, i =>
    if needle.isPrefixOf (c :: t) then some i else indexOfAux needle t (i + 1)

/-- ECMAScript `GetSubstitution` for a string (non-regex) search with no
capture groups, as used by `String.prototype.replace(old, new)`: in the
replacement text, `$$` yields `$`, `$&` the matched substring, a
dollar-backquote the portion before the match, a dollar-quote the portion
after it, and every other `$`-sequence (including `$<digit>` — there are
no capture groups) stays literal. -/
def getSubstitution (matched before after : List Char) :
    List Char → List Char
  | [] => []
  | '$' :: '$' :: rest => '$' :: getSubstitution matched before after rest
  | '$' :: '&' :: rest => matched ++ getSubstitution matched before after rest
  | '$' :: '\x60' :: rest =>
    before ++ getSubstitution matched before after rest
  | '$' :: '\x27' :: rest =>
    after ++ getSubstitution matched before after rest
  | '$' :: c :: rest => '$' :: c :: getSubstitution matched before after rest
  | ['$'] => ['$']
  | c :: rest => c :: getSubstitution matched before after rest

/-- JavaScript `s.replace(old, new)` with string arguments: replace the
first occurrence of `old` (if any) by `new` with `GetSubstitution`
applied to `new`. -/
def jsReplaceFirst (s old new : String) : String :=
  match indexOfAux old.toList s.toList 0 with
  | none => s
  | some i =>
    let cs := s.toList
    let before := cs.take i
    let after := cs.drop (i + old.toList.length)
    ⟨before ++ getSubstitution old.toList before after new.toList ++ after⟩

/-- Outcome of the edit loop inside `editFile`. -/
inductive EditOutcome
  | ok (content : String) (editsApplied : Nat)
  | failed (error : String)
deriving Repr, DecidableEq

/-- The edit loop of `editFile` in
`packages/sandbox/src/filesystem/operations.ts`: for each edit in order,
fail if `oldContent` does not occur in the current buffer (error text
carries `oldContent.substring(0, 50)` plus `"..."`), else replace its
first occurrence via `content.replace(edit.oldContent, edit.newContent)`
and increment `editsApplied`. -/
def applyEdits (content : String) : List FileEdit → Nat → EditOutcome
  | [], n => .ok content n
  | e :: rest, n =>
    if strContains content e.oldContent = false then
      .failed ("Could not find content to replace: \"" ++
        (⟨e.oldContent.toList.take 50⟩ : String) ++ "...\"")
    else
      applyEdits (jsReplaceFirst content e.oldContent e.newContent) rest
        (n + 1)

/-- Embeds `editFile` of
`packages/sandbox/src/filesystem/operations.ts` over the modelled
workspace.  The `isPathInWorkspace` guard resolves host paths (an
environment concern), so it is abstracted as the predicate
`inWorkspace`; a failing guard returns the source's "Path is outside
workspace" failure.  A missing file fails with "File not found"; a
failing edit returns its error with the file untouched; only after every
edit succeeds is the final buffer written back (its reported `size` is
the UTF-8 byte length, `Buffer.byteLength`). -/
def editFileFS (inWorkspace : String → Bool) (fs : FS) (path : String)
    (edits : List FileEdit) : FS × FileResult :=
  if inWorkspace path = false then
    (fs, { success := false, path := path,
           error := some "Path is outside workspace" })
  else
    match fsRead fs path with
    | none =>
      (fs, { success := false, path := path, error := some "File not found" })
    | some content =>
      match applyEdits content edits 0 with
      | .failed err =>
        (fs, { success := false, path := path, error := some err })
      | .ok c n =>
        (fsWrite fs path c,
         { success := true, path := path, editsApplied := some n,
           size := some c.utf8ByteSize })

/-- Specification-side edit semantics, written from the claim's words
with literal replacement: apply the edits in order, each replacing the
first occurrence of `oldContent` by `newContent` taken verbatim; the
first edit whose `oldContent` does not occur aborts with its probe. -/
def applyEditsLiteral : String → List FileEdit → Except String String
  | c, [] => .ok c
  | c, e :: rest =>
    match indexOfAux e.oldContent.toList c.toList 0 with
    | none => .error e.oldContent
    | some i =>
      let cs := c.toList
      applyEditsLiteral
        ⟨cs.take i ++ e.newContent.toList ++
          cs.drop (i + e.oldContent.toList.length)⟩ rest

/-- Raw, unvalidated operations as the zod schemas of
`packages/protocol/src/operations/schemas.ts` see them (after JSON
parsing; fields that can be absent are optional).  Shapes that fail
before any of the claim's checks — a missing field, a wrong-typed field,
an unknown `type` tag — are outside this model. -/
inductive RawOperation
  | message (id : Option String) (content : String)
  | createFile (id : Option String) (path : String) (content : String)
      (encoding : Option Encoding) (overwrite : Option Bool)
  | readFile (id : Option String) (path : String) (encoding : Option Encoding)
  | editFile (id : Option String) (path : String) (edits : List FileEdit)
  | deleteFile (id : Option String) (path : String)
  | shell (id : Option String) (command : String) (cwd : Option String)
      (timeout : Option Int) (env : Option (List (String × String)))
deriving Repr, DecidableEq

/-- Embeds `pathSchema` of
`packages/protocol/src/operations/schemas.ts`: length at most 255
(`z.string().max(MAX_PATH_LENGTH)`), no leading `/`, no `..` substring,
no NUL byte.  (`z.string().max` counts UTF-16 units; `String.length`
counts characters — the difference needs astral-plane code points, which
no claim involves.) -/
def pathSchemaOk (path : String) : Bool :=
  path.length ≤ 255 &&
    !("/".isPrefixOf path) &&
    !(strContains path "..") &&
    !(strContains path "\x00")

/-- Embeds the per-variant checks of `operationSchema`
(`packages/protocol/src/operations/schemas.ts`): content-length caps for
`message` (100 000) and `createFile` (10 MiB), the path invariants for
every path-bearing field (including `shell.cwd`), a non-empty edits list
(`z.array(fileEditSchema).min(1)`), a command cap of 4096 and a shell
timeout in `[1000, 3600000]` when present. -/
def validateOperation : RawOperation → Bool
  | .message _ content => content.length ≤ 100000
  | .createFile _ path content _ _ =>
    pathSchemaOk path && content.length ≤ 10 * 1024 * 1024
  | .readFile _ path _ => pathSchemaOk path
  | .editFile _ path edits => pathSchemaOk path && edits.length ≥ 1
  | .deleteFile _ path => pathSchemaOk path
  | .shell _ command cwd timeout _ =>
    command.length ≤ 4096 &&
      (match cwd with
       | none => true
       | some c => pathSchemaOk c) &&
      (match timeout with
       | none => true
       | some t => 1000 ≤ t && t ≤ 3600000)

/-- A raw batch envelope for `operationsMessageSchema`. -/
structure RawOperationsMessage where
  protocolVersion : String
  operations : List RawOperation
deriving Repr, DecidableEq

/-- Embeds `operationsMessageSchema` /
`validateOperationsMessage` of `packages/protocol`: the envelope is valid
iff `protocolVersion` is exactly `"1.0"` and every operation validates. -/
def validateOperationsMessage (msg : RawOperationsMessage) : Bool :=
  msg.protocolVersion = "1.0" && msg.operations.all validateOperation

/-- Whether an event is the `approvalRequired` variant. -/
def Event.isApprovalRequired : Event → Bool
  | .approvalRequired .. => true
  | _ => false

/-- The claim's per-position correspondence for a completed run: the
event at a position is either the same-typed event as the operation
there or a `policyDenied` event. -/
def ownTypedOrDenied (op : Operation) (e : Event) : Bool :=
  e.typeName = op.typeName || e.typeName = "policyDenied"

/-- The claim's per-position correspondence for any evaluated operation:
its own-typed event, `policyDenied`, or `approvalRequired`. -/
def ownTypedDeniedOrApproval (op : Operation) (e : Event) : Bool :=
  ownTypedOrDenied op e || e.typeName = "approvalRequired"

/-- Specification-side selection of the operations actually dispatched to
the sandbox: walk the list with the policy only; a denied operation is
skipped, a gated operation stops the walk, an allowed operation is kept.
`none` mirrors a policy-evaluation exception.  (Selection is independent
of the sandbox: this is what makes the frame claim meaningful.) -/
def allowedPrefix (pe : Policy) : List Operation → Option (List Operation)
  | [] => some []
  | op :: rest =>
    match evaluate pe op with
    | none => none
    | some ev =>
      if ev.allowed = false then allowedPrefix pe rest
      else if ev.requiresApproval then some []
      else (allowedPrefix pe rest).map (op :: ·)

/-- Folding the sandbox dispatch over a list of operations, threading the
state and ignoring events. -/
def dispatchFold (sb : SandboxModel σ) (ops : List Operation) (s : σ) : σ :=
  ops.foldl (fun st op => (executeOperation sb op st).1) s

/-- The `path` field of a raw operation, for the variants that have
one. -/
def RawOperation.pathOf : RawOperation → Option String
  | .message _ _ => none
  | .createFile _ path _ _ _ => some path
  | .readFile _ path _ => some path
  | .editFile _ path _ => some path
  | .deleteFile _ path => some path
  | .shell _ _ _ _ _ => none

/-- The token list a `?`-free pattern compiles to: `*` becomes the
wildcard, every other character a literal. -/
def toksOf (p : List Char) : List CTok :=
  p.map (fun c => if c = '*' then CTok.star else CTok.lit c)

/-- Specification-side edit semantics with JavaScript replacement: apply
the edits in order, each replacing the first occurrence of its
`oldContent` (with the dollar-substitutions of `getSubstitution`
interpreted in `newContent`); the first edit whose `oldContent` does not
occur in the current buffer aborts with that probe. -/
def applyEditsJS : String → List FileEdit → Except String String
  | c, [] => .ok c
  | c, e :: rest =>
    if strContains c e.oldContent = false then .error e.oldContent
    else applyEditsJS (jsReplaceFirst c e.oldContent e.newContent) rest

/-- A shell operation that the `standard` preset gates behind approval:
its base token `echo` is allowlisted, no blocked pattern occurs, and the
approval pattern `rm -rf` occurs as a substring. -/
def approvalGatedShellOp : Operation :=
  .shell (some "op1") "echo rm -rf" none none []

/-- A shell operation gated behind approval that carries no id. -/
def approvalGatedShellOpNoId : Operation :=
  .shell none "echo rm -rf" none none []

/-- The run record persisted after `executeRun` suspends on
`[approvalGatedShellOp]` under the `standard` preset: events, status and
pending approval exactly as the executor returned them. -/
def suspendedRunSingle : Run :=
  { id := "run_A"
    operations := [approvalGatedShellOp]
    events := ((executeRun standardPolicy stubSandbox [approvalGatedShellOp]
      ()).map (·.events)).getD []
    status := .awaitingApproval
    pendingApproval := (executeRun standardPolicy stubSandbox
      [approvalGatedShellOp] ()).bind (·.pendingApproval) }

/-- The operations of a run that suspends at index 0 with two further
operations pending. -/
def opsWithTail : List Operation :=
  [approvalGatedShellOp, .message none "tail one", .message none "tail two"]

/-- The run record persisted after `executeRun` suspends on `opsWithTail`
under the `standard` preset. -/
def suspendedRunWithTail : Run :=
  { id := "run_B"
    operations := opsWithTail
    events := ((executeRun standardPolicy stubSandbox opsWithTail ()).map
      (·.events)).getD []
    status := .awaitingApproval
    pendingApproval := (executeRun standardPolicy stubSandbox opsWithTail
      ()).bind (·.pendingApproval) }

/-- The operations of a run that suspends on an id-less gated operation
while an earlier operation carries the id `"a"`. -/
def opsNoIdGate : List Operation :=
  [.message (some "a") "hi", approvalGatedShellOpNoId]

/-- The run record persisted after `executeRun` suspends on `opsNoIdGate`
under the `standard` preset: the stored pending operation id is the empty
string. -/
def suspendedRunNoId : Run :=
  { id := "run_C"
    operations := opsNoIdGate
    events := ((executeRun standardPolicy stubSandbox opsNoIdGate ()).map
      (·.events)).getD []
    status := .awaitingApproval
    pendingApproval := (executeRun standardPolicy stubSandbox opsNoIdGate
      ()).bind (·.pendingApproval) }

/-! ## Theorems -/

/-- Helper: the implementation's optional-list blocked/approval check
agrees with `any`-over-`getD`. -/
theorem optMap_getD_any (c : String) (o : Option (List String)) :
    (o.map (shellMatchesAnyPattern c)).getD false =
      (o.getD []).any (fun p => strContains c p) := by
  cases o <;> simp [shellMatchesAnyPattern]

/-- C4: shell policy evaluation applies its checks in the fixed order
disabled → blocked patterns (substring of the raw command, before the
allowlist) → allowlist (exact match of the base token, with a suggestion
listing the allowed commands) → approval patterns (substring) → allow,
with the claimed policy tags.  `shellSpecVerdict` is the claim's
description; the conjunct ties the implementation's suggestion in the
allowlist-deny case to the list of allowed commands. -/
theorem allowlist_cond_eq (b : String) (o : Option (List String)) :
    (o.map (fun cmds => cmds.length > 0 && !(cmds.contains b))).getD false =
      (!(o.getD []).isEmpty && !(o.getD []).contains b) := by
  cases o with
  | none => simp
  | some l => cases l <;> simp

theorem evaluateShellPolicy_order_correct :
    ∀ (p : ShellPolicy) (c : String),
      (evaluateShellPolicy p c).verdict = shellSpecVerdict p c
      ∧ (shellSpecVerdict p c = .deny "shell.allowedCommands" →
          (evaluateShellPolicy p c).suggestion =
            some ("Allowed commands: " ++
              String.intercalate ", " (p.allowedCommands.getD []))) := by
  intro p c
  simp only [evaluateShellPolicy, shellSpecVerdict, optMap_getD_any,
    allowlist_cond_eq]
  constructor
  · split_ifs <;> rfl
  · split_ifs with h1 h2 h3 h4 <;> intro h <;>
      first
        | rfl
        | (injection h with h'
           exact absurd h' (by decide))
        | cases h

/-- Witness for `evaluateShellPolicy_order_correct` at the `standard`
preset and the command `rm -rf tmp`, whose base token is not
allowlisted. -/
theorem evaluateShellPolicy_order_correct_witness :
    (evaluateShellPolicy standardPolicy.shell "rm -rf tmp").verdict =
      shellSpecVerdict standardPolicy.shell "rm -rf tmp"
    ∧ (evaluateShellPolicy standardPolicy.shell "rm -rf tmp").suggestion =
      some ("Allowed commands: " ++ String.intercalate ", "
        (standardPolicy.shell.allowedCommands.getD [])) :=
  ⟨(evaluateShellPolicy_order_correct standardPolicy.shell "rm -rf tmp").1,
   (evaluateShellPolicy_order_correct standardPolicy.shell "rm -rf tmp").2
     (by decide)⟩

/-- C6: for a requested timeout in the valid range the effective shell
timeout is the minimum of the request and the policy timeout; with no
request it is the policy timeout; and for every input it never exceeds
the policy timeout. -/
theorem getShellTimeout_correct :
    ∀ (p : ShellPolicy) (t : Int),
      (1000 ≤ t → t ≤ 3600000 →
        getShellTimeout p (some t) = min t p.timeout)
      ∧ getShellTimeout p none = p.timeout
      ∧ ∀ r : Option Int, getShellTimeout p r ≤ p.timeout := by
  intro p t
  have hof : ∀ r : Option Int, getShellTimeout p r ≤ p.timeout := by
    intro r
    cases r with
    | none => simp [getShellTimeout]
    | some u =>
      simp only [getShellTimeout]
      split
      · next h => exact le_of_lt h.2
      · exact le_refl _
  refine ⟨?_, rfl, hof⟩
  intro h1 _
  simp only [getShellTimeout]
  split
  · next h => exact (min_eq_left (le_of_lt h.2)).symm
  · next h =>
    have hge : ¬ t < p.timeout := fun hlt => h ⟨by omega, hlt⟩
    exact (min_eq_right (le_of_not_lt hge)).symm

/-- Witness for `getShellTimeout_correct`: requesting 5000 ms under the
`standard` preset yields 5000 = min 5000 30000. -/
theorem getShellTimeout_correct_witness :
    getShellTimeout standardPolicy.shell (some 5000) =
      min (5000 : Int) standardPolicy.shell.timeout :=
  (getShellTimeout_correct standardPolicy.shell 5000).1 (by norm_num)
    (by norm_num)

/-- Helper: any of the four path violations makes `pathSchemaOk`
false. -/
theorem pathSchemaOk_false_of_bad (path : String)
    (h : "/".isPrefixOf path = true ∨ strContains path ".." = true ∨
      strContains path "\x00" = true ∨ 255 < path.length) :
    pathSchemaOk path = false := by
  rcases h with h | h | h | h
  · simp [pathSchemaOk, h]
  · simp [pathSchemaOk, h]
  · simp [pathSchemaOk, h]
  · simp [pathSchemaOk]
    omega

/-- C8: the operation validator rejects every operation whose path starts
with the separator `/`, contains `..`, contains a NUL byte, or is longer
than 255 characters; every `createFile` whose content exceeds 10 MiB;
every `editFile` with an empty edits list; every shell timeout outside
`[1000, 3600000]`; and the envelope validator additionally rejects any
envelope whose `protocolVersion` is not exactly `"1.0"`, as well as any
envelope containing a rejected operation. -/
theorem validateOperation_rejects_invalid :
    (∀ (op : RawOperation) (path : String), op.pathOf = some path →
        ("/".isPrefixOf path = true ∨ strContains path ".." = true ∨
          strContains path "\x00" = true ∨ 255 < path.length) →
        validateOperation op = false)
    ∧ (∀ id path content enc ow, 10 * 1024 * 1024 < content.length →
        validateOperation (.createFile id path content enc ow) = false)
    ∧ (∀ id path, validateOperation (.editFile id path []) = false)
    ∧ (∀ id cmd cwd env (t : Int), (t < 1000 ∨ 3600000 < t) →
        validateOperation (.shell id cmd cwd (some t) env) = false)
    ∧ (∀ msg : RawOperationsMessage, msg.protocolVersion ≠ "1.0" →
        validateOperationsMessage msg = false)
    ∧ (∀ (msg : RawOperationsMessage) (op : RawOperation),
        op ∈ msg.operations → validateOperation op = false →
        validateOperationsMessage msg = false) := by
  refine ⟨?_, ?_, ?_, ?_, ?_, ?_⟩
  · intro op path hp hbad
    have hps := pathSchemaOk_false_of_bad path hbad
    cases op <;> simp [RawOperation.pathOf] at hp <;>
      simp [validateOperation, hp ▸ hps]
  · intro id path content enc ow h
    simp [validateOperation]
    omega
  · intro id path
    simp [validateOperation]
  · intro id cmd cwd env t h
    simp [validateOperation]
    intro _ _
    omega
  · intro msg h
    simp [validateOperationsMessage, h]
  · intro msg op hmem hop
    cases hall : msg.operations.all validateOperation with
    | false => simp [validateOperationsMessage, hall]
    | true =>
      have := (List.all_eq_true.mp hall) op hmem
      rw [hop] at this
      cases this

/-- Witness for `validateOperation_rejects_invalid`: a `createFile` whose
path contains `..` is rejected. -/
theorem validateOperation_rejects_invalid_witness :
    RawOperation.pathOf (.createFile none "../x" "hi" none none) =
      some "../x"
    ∧ strContains "../x" ".." = true
    ∧ validateOperation (.createFile none "../x" "hi" none none) = false :=
  ⟨rfl, by decide,
    validateOperation_rejects_invalid.1 _ "../x" rfl
      (Or.inr (Or.inl (by decide)))⟩

/-! Unfolding lemmas for `rmatch` and `globMatch` (they recurse on a
lexicographic measure, so their defining equations are restated here for
rewriting). -/

theorem rmatch_nil (s : List Char) : rmatch [] s = s.isEmpty := by
  simp [rmatch]

theorem rmatch_lit_nil (c : Char) (ts : List CTok) :
    rmatch (.lit c :: ts) [] = false := by
  simp [rmatch]

theorem rmatch_lit_cons (c : Char) (ts : List CTok) (x : Char)
    (xs : List Char) :
    rmatch (.lit c :: ts) (x :: xs) = (decide (c = x) && rmatch ts xs) := by
  simp [rmatch]

theorem rmatch_opt_nil (c : Char) (ts : List CTok) :
    rmatch (.opt c :: ts) [] = rmatch ts [] := by
  simp [rmatch]

theorem rmatch_opt_cons (c : Char) (ts : List CTok) (x : Char)
    (xs : List Char) :
    rmatch (.opt c :: ts) (x :: xs) =
      (rmatch ts (x :: xs) || (decide (c = x) && rmatch ts xs)) := by
  simp [rmatch]

theorem rmatch_star_nil (ts : List CTok) :
    rmatch (.star :: ts) [] = rmatch ts [] := by
  simp [rmatch]

theorem rmatch_star_cons (ts : List CTok) (x : Char) (xs : List Char) :
    rmatch (.star :: ts) (x :: xs) =
      (rmatch ts (x :: xs) ||
        (!isLineTerminator x && rmatch (.star :: ts) xs)) := by
  simp [rmatch]

theorem globMatch_nil (s : List Char) : globMatch [] s = s.isEmpty := by
  simp [globMatch]

theorem globMatch_star_nil (ps : List Char) :
    globMatch ('*' :: ps) [] = globMatch ps [] := by
  simp [globMatch]

theorem globMatch_star_cons (ps : List Char) (x : Char) (xs : List Char) :
    globMatch ('*' :: ps) (x :: xs) =
      (globMatch ps (x :: xs) || globMatch ('*' :: ps) xs) := by
  simp [globMatch]

theorem globMatch_lit_nil (p : Char) (ps : List Char) (h : p ≠ '*') :
    globMatch (p :: ps) [] = false := by
  simp [globMatch, h]

theorem globMatch_lit_cons (p : Char) (ps : List Char) (x : Char)
    (xs : List Char) (h : p ≠ '*') :
    globMatch (p :: ps) (x :: xs) = (decide (p = x) && globMatch ps xs) := by
  simp [globMatch, h]

/-! Unfolding lemmas for `parseRegexAux` (its single defining equation
would loop under `simp`). -/

theorem parseRegexAux_nil (acc : List CTok) :
    parseRegexAux [] acc = some acc.reverse := by
  rw [parseRegexAux.eq_def]

theorem parseRegexAux_esc (c : Char) (rest : List Char) (acc : List CTok) :
    parseRegexAux ('\\' :: c :: rest) acc =
      parseRegexAux rest (.lit c :: acc) := by
  rw [parseRegexAux.eq_def]
  simp

theorem parseRegexAux_dotstar (rest : List Char) (acc : List CTok) :
    parseRegexAux ('.' :: '*' :: rest) acc =
      parseRegexAux rest (.star :: acc) := by
  rw [parseRegexAux.eq_def]
  simp

theorem parseRegexAux_other (c : Char) (rest : List Char) (acc : List CTok)
    (h1 : c ≠ '\\') (h2 : c ≠ '.') (h3 : c ≠ '?') (h4 : c ≠ '*') :
    parseRegexAux (c :: rest) acc = parseRegexAux rest (.lit c :: acc) := by
  rw [parseRegexAux.eq_def]
  simp [h1, h2, h3, h4]

/-- Helper: a `?`-free pattern compiles (through the source's escaping
and `*→.*` rewriting) to exactly its literal/wildcard token list. -/
theorem parseRegexAux_noQuestion :
    ∀ (p : List Char) (acc : List CTok), '?' ∉ p →
      parseRegexAux (regexPatternChars p) acc =
        some (acc.reverse ++ toksOf p) := by
  intro p
  induction p with
  | nil =>
    intro acc _
    simp [regexPatternChars, parseRegexAux_nil, toksOf]
  | cons c rest ih =>
    intro acc hq
    have hq' : '?' ∉ rest := fun h => hq (by simp [h])
    have hcq : c ≠ '?' := fun h => hq (by simp [h])
    by_cases hesc : c ∈ escapedRegexChars
    · have hcs : c ≠ '*' := by
        rintro rfl
        simp [escapedRegexChars] at hesc
      have ht : toksOf (c :: rest) = .lit c :: toksOf rest := by
        simp [toksOf, hcs]
      have hrp : regexPatternChars (c :: rest) =
          '\\' :: c :: regexPatternChars rest := by
        simp [regexPatternChars, hesc]
      rw [hrp, parseRegexAux_esc, ih (.lit c :: acc) hq', ht]
      simp
    · by_cases hcs : c = '*'
      · subst hcs
        have ht : toksOf ('*' :: rest) = .star :: toksOf rest := by
          simp [toksOf]
        have hrp : regexPatternChars ('*' :: rest) =
            '.' :: '*' :: regexPatternChars rest := by
          simp [regexPatternChars, hesc]
        rw [hrp, parseRegexAux_dotstar, ih (.star :: acc) hq', ht]
        simp
      · have h1 : c ≠ '\\' := by
          rintro rfl
          simp [escapedRegexChars] at hesc
        have h2 : c ≠ '.' := by
          rintro rfl
          simp [escapedRegexChars] at hesc
        have ht : toksOf (c :: rest) = .lit c :: toksOf rest := by
          simp [toksOf, hcs]
        have hrp : regexPatternChars (c :: rest) =
            c :: regexPatternChars rest := by
          simp [regexPatternChars, hesc, hcs]
        rw [hrp, parseRegexAux_other c _ acc h1 h2 hcq hcs,
          ih (.lit c :: acc) hq', ht]
        simp

/-- Helper: on line-terminator-free inputs, the compiled token list of a
`?`-free pattern accepts exactly the glob language. -/
theorem rmatch_toksOf_eq_globMatch :
    ∀ (p s : List Char), (∀ x ∈ s, isLineTerminator x = false) →
      rmatch (toksOf p) s = globMatch p s := by
  intro p
  induction p with
  | nil =>
    intro s _
    simp [toksOf, rmatch_nil, globMatch_nil]
  | cons c ps ih =>
    intro s
    by_cases hc : c = '*'
    · subst hc
      have ht : toksOf ('*' :: ps) = .star :: toksOf ps := by simp [toksOf]
      induction s with
      | nil =>
        intro _
        rw [ht, rmatch_star_nil, globMatch_star_nil]
        exact ih [] (by simp)
      | cons x xs ihs =>
        intro hs
        have hx : isLineTerminator x = false := hs x (by simp)
        have hxs : ∀ y ∈ xs, isLineTerminator y = false := fun y hy =>
          hs y (by simp [hy])
        rw [ht, rmatch_star_cons, globMatch_star_cons, hx,
          ih (x :: xs) hs, ← ht, ihs hxs]
        simp
    · intro hs
      have ht : toksOf (c :: ps) = .lit c :: toksOf ps := by
        simp [toksOf, hc]
      cases s with
      | nil =>
        rw [ht, rmatch_lit_nil, globMatch_lit_nil c ps hc]
      | cons x xs =>
        have hxs : ∀ y ∈ xs, isLineTerminator y = false := fun y hy =>
          hs y (by simp [hy])
        rw [ht, rmatch_lit_cons, globMatch_lit_cons c ps x xs hc,
          ih xs hxs]

/-- C5 (amended): for every pattern containing no `?` and every path
containing no line terminator, `matchesPattern` succeeds exactly when the
naive glob semantics — `*` matches any run of characters, every other
pattern character is literal — matches the whole path. -/
theorem matchesPattern_glob_equiv :
    ∀ (pattern path : String), '?' ∉ pattern.toList →
      (∀ x ∈ path.toList, isLineTerminator x = false) →
      matchesPattern path pattern =
        some (globMatch pattern.toList path.toList) := by
  intro pattern path hq hlt
  unfold matchesPattern
  rw [parseRegexAux_noQuestion pattern.toList [] hq]
  exact congrArg some
    (rmatch_toksOf_eq_globMatch pattern.toList path.toList hlt)

/-- Witness for `matchesPattern_glob_equiv`: the `standard` preset's
pattern `*.env` against the path `secret.env`. -/
theorem matchesPattern_glob_equiv_witness :
    matchesPattern "secret.env" "*.env" =
      some (globMatch "*.env".toList "secret.env".toList) :=
  matchesPattern_glob_equiv "*.env" "secret.env" (by decide) (by decide)

/-- C5 counterexample: the claim's equivalence with naive glob semantics
fails.  `?` is not in the escaped character class, so the pattern
`file?.txt` compiles to the regex `^file?\.txt$`, which matches
`file.txt` although glob semantics demands a literal `?`; and `*`
compiles to `.*`, which does not cross a newline, so the pattern `*`
fails to match `a\nb` although glob semantics matches it. -/
theorem matchesPattern_not_glob_counterexample :
    matchesPattern "file.txt" "file?.txt" = some true
    ∧ globMatch "file?.txt".toList "file.txt".toList = false
    ∧ matchesPattern "a\nb" "*" = some false
    ∧ globMatch "*".toList "a\nb".toList = true := by
  have hp1 : parseRegexAux (regexPatternChars "file?.txt".toList) [] =
      some [.lit 'f', .lit 'i', .lit 'l', .opt 'e', .lit '.', .lit 't',
        .lit 'x', .lit 't'] := rfl
  have hm1 : rmatch [.lit 'f', .lit 'i', .lit 'l', .opt 'e', .lit '.',
      .lit 't', .lit 'x', .lit 't'] "file.txt".toList = true := by
    simp [show "file.txt".toList =
        ['f', 'i', 'l', 'e', '.', 't', 'x', 't'] from rfl,
      rmatch_lit_cons, rmatch_opt_cons, rmatch_lit_nil, rmatch_nil]
  have hp3 : parseRegexAux (regexPatternChars "*".toList) [] =
      some [.star] := rfl
  have hm3 : rmatch [.star] "a\nb".toList = false := by
    simp [show "a\nb".toList = ['a', '\n', 'b'] from rfl,
      rmatch_star_cons, rmatch_star_nil, rmatch_nil, isLineTerminator]
  refine ⟨?_, ?_, ?_, ?_⟩
  · unfold matchesPattern
    rw [hp1]
    exact congrArg some hm1
  · simp [show "file?.txt".toList =
        ['f', 'i', 'l', 'e', '?', '.', 't', 'x', 't'] from rfl,
      show "file.txt".toList =
        ['f', 'i', 'l', 'e', '.', 't', 'x', 't'] from rfl,
      globMatch_lit_cons, globMatch_lit_nil]
  · unfold matchesPattern
    rw [hp3]
    exact congrArg some hm3
  · simp [show "*".toList = ['*'] from rfl,
      show "a\nb".toList = ['a', '\n', 'b'] from rfl,
      globMatch_star_cons, globMatch_star_nil, globMatch_nil]

/-! Substring helpers for the `editFile` error message. -/

theorem isPrefixOf_append_self (l b : List Char) :
    l.isPrefixOf (l ++ b) = true := by
  induction l with
  | nil => simp [List.isPrefixOf]
  | cons x xs ih => simp [List.isPrefixOf, ih]

theorem listContainsSub_refl_append (n b : List Char) :
    listContainsSub n (n ++ b) = true := by
  cases n with
  | nil => cases b <;> simp [listContainsSub, List.isPrefixOf]
  | cons x xs => simp [listContainsSub, isPrefixOf_append_self]

theorem listContainsSub_append_left (n : List Char) :
    ∀ (a hay : List Char), listContainsSub n hay = true →
      listContainsSub n (a ++ hay) = true := by
  intro a
  induction a with
  | nil => intro hay h; simpa using h
  | cons c t ih =>
    intro hay h
    have := ih hay h
    simp [listContainsSub, this]

/-- A string occurs in any concatenation that has it as the middle
part. -/
theorem strContains_append_middle (a mid b : String) :
    strContains (a ++ mid ++ b) mid = true := by
  have h1 : listContainsSub mid.toList (mid.toList ++ b.toList) = true :=
    listContainsSub_refl_append mid.toList b.toList
  have h2 := listContainsSub_append_left mid.toList a.toList
    (mid.toList ++ b.toList) h1
  simpa [strContains, String.toList] using h2

/-- Helper: the `editFile` loop equals the claim-style fold — it succeeds
with the folded buffer and a count of all edits, or fails at the first
edit whose probe is missing, with the error text built from the probe's
first 50 characters. -/
theorem applyEdits_eq_spec :
    ∀ (edits : List FileEdit) (content : String) (n : Nat),
      applyEdits content edits n =
        match applyEditsJS content edits with
        | .ok c => .ok c (n + edits.length)
        | .error probe =>
            .failed ("Could not find content to replace: \"" ++
              (⟨probe.toList.take 50⟩ : String) ++ "...\"") := by
  intro edits
  induction edits with
  | nil =>
    intro content n
    simp [applyEdits, applyEditsJS]
  | cons e rest ih =>
    intro content n
    by_cases hc : strContains content e.oldContent = false
    · simp [applyEdits, applyEditsJS, hc]
    · have hc' : strContains content e.oldContent = true := by
        revert hc
        cases strContains content e.oldContent <;> simp
      rw [show applyEdits content (e :: rest) n =
        applyEdits (jsReplaceFirst content e.oldContent e.newContent) rest
          (n + 1) from by simp [applyEdits, hc']]
      rw [show applyEditsJS content (e :: rest) =
        applyEditsJS (jsReplaceFirst content e.oldContent e.newContent) rest
          from by simp [applyEditsJS, hc']]
      rw [ih _ (n + 1)]
      cases applyEditsJS (jsReplaceFirst content e.oldContent e.newContent)
          rest with
      | ok c =>
        have harith : n + 1 + rest.length = n + (rest.length + 1) := by omega
        simp [harith]
      | error probe => rfl

/-- C7 (amended): `editFile` reads the target file and applies the edits
in order, each replacing the first occurrence of `oldContent` by
`newContent` with JavaScript's dollar-substitution (`$$`, `$&`,
dollar-backquote, dollar-quote) interpreted (`applyEditsJS`); if some
edit's probe does not occur, it fails with an error containing the first
50 characters of that probe and writes nothing back; only after every
edit succeeds is the final buffer written, with `success = true` and
`editsApplied` equal to the number of edits. -/
theorem editFileFS_correct :
    ∀ (inWs : String → Bool) (fs : FS) (path : String)
      (edits : List FileEdit) (content : String),
      inWs path = true → fsRead fs path = some content →
      ((∃ c, applyEditsJS content edits = .ok c ∧
          editFileFS inWs fs path edits =
            (fsWrite fs path c,
             { success := true, path := path,
               editsApplied := some edits.length,
               size := some c.utf8ByteSize }))
       ∨ (∃ probe err, applyEditsJS content edits = .error probe ∧
           editFileFS inWs fs path edits =
             (fs, { success := false, path := path, error := some err }) ∧
           strContains err (⟨probe.toList.take 50⟩ : String) = true)) := by
  intro inWs fs path edits content hws hread
  cases hJS : applyEditsJS content edits with
  | ok c =>
    left
    refine ⟨c, rfl, ?_⟩
    have happ : applyEdits content edits 0 = .ok c edits.length := by
      rw [applyEdits_eq_spec edits content 0, hJS]
      simp
    simp [editFileFS, hws, hread, happ]
  | error probe =>
    right
    refine ⟨probe, "Could not find content to replace: \"" ++
      (⟨probe.toList.take 50⟩ : String) ++ "...\"", rfl, ?_, ?_⟩
    · have happ : applyEdits content edits 0 =
          .failed ("Could not find content to replace: \"" ++
            (⟨probe.toList.take 50⟩ : String) ++ "...\"") := by
        rw [applyEdits_eq_spec edits content 0, hJS]
      simp [editFileFS, hws, hread, happ]
    · exact strContains_append_middle "Could not find content to replace: \""
        (⟨probe.toList.take 50⟩ : String) "...\""

/-- Witness for `editFileFS_correct`: a single successful edit on a
one-file workspace. -/
theorem editFileFS_correct_witness :
    ((∃ c, applyEditsJS "hello world" [⟨"world", "there"⟩] = .ok c ∧
        editFileFS (fun _ => true) [("a.txt", "hello world")] "a.txt"
            [⟨"world", "there"⟩] =
          (fsWrite [("a.txt", "hello world")] "a.txt" c,
           { success := true, path := "a.txt",
             editsApplied :=
               some ([(⟨"world", "there"⟩ : FileEdit)]).length,
             size := some c.utf8ByteSize }))
     ∨ (∃ probe err,
         applyEditsJS "hello world" [⟨"world", "there"⟩] = .error probe ∧
         editFileFS (fun _ => true) [("a.txt", "hello world")] "a.txt"
             [⟨"world", "there"⟩] =
           ([("a.txt", "hello world")],
            { success := false, path := "a.txt", error := some err }) ∧
         strContains err (⟨probe.toList.take 50⟩ : String) = true)) :=
  editFileFS_correct (fun _ => true) [("a.txt", "hello world")] "a.txt"
    [⟨"world", "there"⟩] "hello world" rfl rfl

/-- C7 counterexample: replacement is not the literal `newContent` — the
JavaScript `$&` substitution inserts the matched text.  Editing `abc`
with `{oldContent: "b", newContent: "$&$&"}` writes `abbc`, not the
`a$&$&c` the claim's literal-replacement reading predicts (and the edit
reports success). -/
theorem editFile_literal_replacement_counterexample :
    applyEditsLiteral "abc" [⟨"b", "$&$&"⟩] = .ok "a$&$&c"
    ∧ (editFileFS (fun _ => true) [("a.txt", "abc")] "a.txt"
        [⟨"b", "$&$&"⟩]).1 = [("a.txt", "abbc")]
    ∧ (editFileFS (fun _ => true) [("a.txt", "abc")] "a.txt"
        [⟨"b", "$&$&"⟩]).2.success = true
    ∧ ("abbc" : String) ≠ "a$&$&c" :=
  ⟨rfl, rfl, rfl, by decide⟩

/-! Executor invariants. -/

/-- Helper: the event built by `executeOperation` carries the type tag of
its operation. -/
theorem executeOperation_typeName {σ : Type} (sb : SandboxModel σ)
    (op : Operation) (s : σ) :
    (executeOperation sb op s).2.typeName = op.typeName := by
  cases op <;> rfl

/-- Helper: the single master induction over the executor loop: length
bound, per-position event correspondence, the completed and suspended
postconditions, status totality, and the frame property (the final
sandbox state is the fold of the Allow-decided evaluated operations). -/
theorem executeRun_inv {σ : Type} (pe : Policy) (sb : SandboxModel σ) :
    ∀ (ops : List Operation) (s : σ) (r : RunResult σ),
      executeRun pe sb ops s = some r →
      (r.events.length ≤ ops.length
       ∧ (∀ (i : Nat) (op : Operation) (e : Event),
           ops[i]? = some op → r.events[i]? = some e →
           ownTypedDeniedOrApproval op e = true)
       ∧ (r.status = .completed →
           r.events.length = ops.length
           ∧ (∀ (i : Nat) (op : Operation) (e : Event),
               ops[i]? = some op → r.events[i]? = some e →
               ownTypedOrDenied op e = true)
           ∧ r.pendingApproval = none)
       ∧ (r.status = .awaitingApproval →
           ∃ pa op e, r.pendingApproval = some pa
             ∧ 0 < r.events.length
             ∧ ops[r.events.length - 1]? = some op
             ∧ r.events[r.events.length - 1]? = some e
             ∧ e.isApprovalRequired = true
             ∧ pa.operationId = op.opId.getD "")
       ∧ (r.status = .completed ∨ r.status = .awaitingApproval)
       ∧ (∃ sel, allowedPrefix pe ops = some sel
           ∧ r.state = dispatchFold sb sel s)) := by
  intro ops
  induction ops with
  | nil =>
    intro s r h
    simp only [executeRun] at h
    obtain rfl := Option.some.inj h
    refine ⟨by simp, ?_, ?_, ?_, Or.inl rfl, ⟨[], by simp [allowedPrefix], rfl⟩⟩
    · intro i op e _ h2
      simp at h2
    · intro _
      exact ⟨rfl, fun i op e _ h2 => absurd h2 (by simp), rfl⟩
    · intro h'
      simp at h'
  | cons op rest ih =>
    intro s r h
    simp only [executeRun] at h
    cases hev : evaluate pe op with
    | none =>
      rw [hev] at h
      simp at h
    | some ev =>
      rw [hev] at h
      simp only [] at h
      by_cases hal : ev.allowed = false
      · rw [if_pos hal] at h
        cases hrec : executeRun pe sb rest s with
        | none =>
          rw [hrec] at h
          simp at h
        | some r' =>
          rw [hrec] at h
          simp only [] at h
          obtain rfl := Option.some.inj h
          obtain ⟨ih1, ih2, ih3, ih4, ih5, ih6⟩ := ih s r' hrec
          refine ⟨?_, ?_, ?_, ?_, ih5, ?_⟩
          · simpa using Nat.succ_le_succ ih1
          · intro i op' e h1 h2
            cases i with
            | zero =>
              simp only [List.getElem?_cons_zero, Option.some.injEq] at h1 h2
              subst h1
              subst h2
              simp [ownTypedDeniedOrApproval, ownTypedOrDenied, Event.typeName]
            | succ n =>
              simp only [List.getElem?_cons_succ] at h1 h2
              exact ih2 n op' e h1 h2
          · intro hst
            obtain ⟨hlen, hcorr, hpa⟩ := ih3 hst
            refine ⟨by simp [hlen], ?_, hpa⟩
            intro i op' e h1 h2
            cases i with
            | zero =>
              simp only [List.getElem?_cons_zero, Option.some.injEq] at h1 h2
              subst h1
              subst h2
              simp [ownTypedOrDenied, Event.typeName]
            | succ n =>
              simp only [List.getElem?_cons_succ] at h1 h2
              exact hcorr n op' e h1 h2
          · intro hst
            obtain ⟨pa, op', e, hpa, hpos, hop, hevt, happr, hid⟩ := ih4 hst
            obtain ⟨k, hk⟩ : ∃ k, r'.events.length = k + 1 :=
              ⟨r'.events.length - 1, by omega⟩
            have hk' : r'.events.length - 1 = k := by omega
            rw [hk'] at hop hevt
            refine ⟨pa, op', e, hpa, by simp, ?_, ?_, happr, hid⟩
            · simp only [List.length_cons, hk, Nat.add_sub_cancel,
                List.getElem?_cons_succ]
              exact hop
            · simp only [List.length_cons, hk, Nat.add_sub_cancel,
                List.getElem?_cons_succ]
              exact hevt
          · obtain ⟨sel, hsel, hstate⟩ := ih6
            refine ⟨sel, ?_, hstate⟩
            simp only [allowedPrefix, hev]
            rw [if_pos hal]
            exact hsel
      · by_cases hra : ev.requiresApproval = true
        · rw [if_neg hal, if_pos hra] at h
          obtain rfl := Option.some.inj h
          refine ⟨by simp, ?_, ?_, ?_, Or.inr rfl, ?_⟩
          · intro i op' e h1 h2
            cases i with
            | zero =>
              simp only [List.getElem?_cons_zero, Option.some.injEq] at h1 h2
              subst h1
              subst h2
              simp [ownTypedDeniedOrApproval, ownTypedOrDenied, Event.typeName]
            | succ n =>
              simp at h2
          · intro hst
            simp at hst
          · intro _
            exact ⟨⟨op.opId.getD "", op.typeName,
                jsOr ev.reason "Operation requires approval",
                approvalDetailsOf op ev⟩, op,
              Event.approvalRequired (op.opId.getD "") op.typeName
                (jsOr ev.reason "Operation requires approval")
                (approvalDetailsOf op ev),
              rfl, by simp, by simp, by simp, rfl, rfl⟩
          · refine ⟨[], ?_, rfl⟩
            simp only [allowedPrefix, hev]
            rw [if_neg hal, if_pos hra]
        · rw [if_neg hal, if_neg hra] at h
          cases hexe : executeOperation sb op s with
          | mk s1 e1 =>
            rw [hexe] at h
            simp only [] at h
            cases hrec : executeRun pe sb rest s1 with
            | none =>
              rw [hrec] at h
              simp at h
            | some r' =>
              rw [hrec] at h
              simp only [] at h
              obtain rfl := Option.some.inj h
              obtain ⟨ih1, ih2, ih3, ih4, ih5, ih6⟩ := ih s1 r' hrec
              have he1 : e1.typeName = op.typeName := by
                have := executeOperation_typeName sb op s
                rw [hexe] at this
                exact this
              refine ⟨?_, ?_, ?_, ?_, ih5, ?_⟩
              · simpa using Nat.succ_le_succ ih1
              · intro i op' e h1 h2
                cases i with
                | zero =>
                  simp only [List.getElem?_cons_zero, Option.some.injEq]
                    at h1 h2
                  subst h1
                  subst h2
                  simp [ownTypedDeniedOrApproval, ownTypedOrDenied, he1]
                | succ n =>
                  simp only [List.getElem?_cons_succ] at h1 h2
                  exact ih2 n op' e h1 h2
              · intro hst
                obtain ⟨hlen, hcorr, hpa⟩ := ih3 hst
                refine ⟨by simp [hlen], ?_, hpa⟩
                intro i op' e h1 h2
                cases i with
                | zero =>
                  simp only [List.getElem?_cons_zero, Option.some.injEq]
                    at h1 h2
                  subst h1
                  subst h2
                  simp [ownTypedOrDenied, he1]
                | succ n =>
                  simp only [List.getElem?_cons_succ] at h1 h2
                  exact hcorr n op' e h1 h2
              · intro hst
                obtain ⟨pa, op', e, hpa, hpos, hop, hevt, happr, hid⟩ :=
                  ih4 hst
                obtain ⟨k, hk⟩ : ∃ k, r'.events.length = k + 1 :=
                  ⟨r'.events.length - 1, by omega⟩
                have hk' : r'.events.length - 1 = k := by omega
                rw [hk'] at hop hevt
                refine ⟨pa, op', e, hpa, by simp, ?_, ?_, happr, hid⟩
                · simp only [List.length_cons, hk, Nat.add_sub_cancel,
                    List.getElem?_cons_succ]
                  exact hop
                · simp only [List.length_cons, hk, Nat.add_sub_cancel,
                    List.getElem?_cons_succ]
                  exact hevt
              · obtain ⟨sel, hsel, hstate⟩ := ih6
                refine ⟨op :: sel, ?_, ?_⟩
                · simp only [allowedPrefix, hev]
                  rw [if_neg hal, if_neg hra, hsel]
                  rfl
                · show r'.state = dispatchFold sb (op :: sel) s
                  have hfold : dispatchFold sb (op :: sel) s =
                      dispatchFold sb sel ((executeOperation sb op s).1) := rfl
                  rw [hfold, hexe]
                  exact hstate

/-- C3: `executeRun` yields exactly one event per evaluated operation, in
operation order: at most one event per operation overall; when the run
completes, the number of events equals the number of operations and the
event at each position is the same-typed event as the operation there or
a `policyDenied` event; when the run suspends, the last event is an
`approvalRequired` event and `pendingApproval.operationId` is the id
stored for the operation at index `len(events) - 1` (`operation.id`, or
the empty string when the operation has no id). -/
theorem executeRun_event_correspondence {σ : Type} (pe : Policy)
    (sb : SandboxModel σ) (ops : List Operation) (s : σ) (r : RunResult σ)
    (h : executeRun pe sb ops s = some r) :
    r.events.length ≤ ops.length
    ∧ (∀ (i : Nat) (op : Operation) (e : Event),
        ops[i]? = some op → r.events[i]? = some e →
        ownTypedDeniedOrApproval op e = true)
    ∧ (r.status = .completed →
        r.events.length = ops.length
        ∧ ∀ (i : Nat) (op : Operation) (e : Event),
            ops[i]? = some op → r.events[i]? = some e →
            ownTypedOrDenied op e = true)
    ∧ (r.status = .awaitingApproval →
        ∃ pa op e, r.pendingApproval = some pa
          ∧ 0 < r.events.length
          ∧ ops[r.events.length - 1]? = some op
          ∧ r.events[r.events.length - 1]? = some e
          ∧ e.isApprovalRequired = true
          ∧ pa.operationId = op.opId.getD "") := by
  obtain ⟨h1, h2, h3, h4, _, _⟩ := executeRun_inv pe sb ops s r h
  exact ⟨h1, h2, fun hst => ⟨(h3 hst).1, (h3 hst).2.1⟩, h4⟩

/-- Witness for `executeRun_event_correspondence`: the length bound on a
concrete two-operation run that suspends after one event. -/
theorem executeRun_event_correspondence_witness :
    ((⟨[Event.message (some "a") true,
        Event.approvalRequired "" "shell" "Command requires approval"
          ⟨some "shell.approvalRequired", some "echo rm -rf", none⟩],
      RunStatus.awaitingApproval,
      some ⟨"", "shell", "Command requires approval",
        ⟨some "shell.approvalRequired", some "echo rm -rf", none⟩⟩,
      ()⟩ : RunResult Unit)).events.length ≤ opsNoIdGate.length :=
  (executeRun_event_correspondence standardPolicy stubSandbox opsNoIdGate ()
    _ rfl).1

/-- C10: an operation whose policy decision is Deny or RequireApproval is
never dispatched to the sandbox: the sandbox state after `executeRun` is
exactly the fold of the sandbox dispatch over the Allow-decided
operations that were evaluated (`allowedPrefix`), for every sandbox
model. -/
theorem executeRun_frame {σ : Type} (pe : Policy) (sb : SandboxModel σ)
    (ops : List Operation) (s : σ) (r : RunResult σ)
    (h : executeRun pe sb ops s = some r) :
    ∃ sel, allowedPrefix pe ops = some sel
      ∧ r.state = dispatchFold sb sel s :=
  (executeRun_inv pe sb ops s r h).2.2.2.2.2

/-- Witness for `executeRun_frame`: the suspending run `opsWithTail`
executes no sandbox operation (its allowed prefix is empty). -/
theorem executeRun_frame_witness :
    ∃ sel, allowedPrefix standardPolicy opsWithTail = some sel
      ∧ ((⟨[Event.approvalRequired "op1" "shell" "Command requires approval"
            ⟨some "shell.approvalRequired", some "echo rm -rf", none⟩],
          RunStatus.awaitingApproval,
          some ⟨"op1", "shell", "Command requires approval",
            ⟨some "shell.approvalRequired", some "echo rm -rf", none⟩⟩,
          ()⟩ : RunResult Unit)).state =
        dispatchFold stubSandbox sel () :=
  executeRun_frame standardPolicy stubSandbox opsWithTail () _ rfl

/-- Helper: `findIndex` on `op.id === oid` finds nothing when no
operation carries the id `oid`. -/
theorem findIndexById_none :
    ∀ (ops : List Operation) (oid : String),
      (∀ op ∈ ops, op.opId ≠ some oid) → findIndexById ops oid = none := by
  intro ops oid
  induction ops with
  | nil => intro _; rfl
  | cons op rest ih =>
    intro h
    have h0 : op.opId ≠ some oid := h op (by simp)
    have hr : ∀ op' ∈ rest, op'.opId ≠ some oid := fun op' hm =>
      h op' (by simp [hm])
    simp [findIndexById, h0, ih hr]

/-- C9 (amended): when a run suspends on an operation that has no id, the
stored `pendingApproval.operationId` is the empty string; and a resume
call supplying an operationId that no operation in the run carries — in
particular the stored empty string, when no operation's id is literally
empty — fails with the operation-not-found error.  (A resume call
supplying the explicit id of a *different* operation in the run is
accepted, so the run is not unresumable in general; see the
counterexample.) -/
theorem resume_noId_suspension_unlocatable :
    (∀ {σ : Type} (run : Run) (sb : SandboxModel σ) (pe : Policy) (s : σ)
        (dec : Decision) (reason : Option String),
        run.status = .awaitingApproval →
        (∀ op ∈ run.operations, op.opId ≠ some "") →
        resume run sb pe s ⟨"", dec, reason⟩ =
          some (.error "Operation  not found in run"))
    ∧ (∀ {σ : Type} (pe : Policy) (sb : SandboxModel σ)
        (ops : List Operation) (s : σ) (r : RunResult σ)
        (pa : PendingApproval) (op : Operation),
        executeRun pe sb ops s = some r →
        r.pendingApproval = some pa →
        ops[r.events.length - 1]? = some op →
        op.opId = none → pa.operationId = "") := by
  constructor
  · intro σ run sb pe s dec reason h1 h2
    unfold resume
    rw [if_neg (by simp [h1])]
    rw [findIndexById_none run.operations "" h2]
    rfl
  · intro σ pe sb ops s r pa op h hpa hop hid
    obtain ⟨_, _, h3, h4, h5, _⟩ := executeRun_inv pe sb ops s r h
    cases h5 with
    | inl hc =>
      rw [(h3 hc).2.2] at hpa
      cases hpa
    | inr ha =>
      obtain ⟨pa', op', e, hpa', _, hop', _, _, hid'⟩ := h4 ha
      rw [hpa] at hpa'
      obtain rfl := Option.some.inj hpa'.symm
      rw [hop] at hop'
      obtain rfl := Option.some.inj hop'.symm
      rw [hid, Option.getD_none] at hid'
      exact hid'

/-- Witness for `resume_noId_suspension_unlocatable`: resuming
`suspendedRunWithTail` (whose operations carry ids `op1`, none, none)
with the empty operationId is rejected. -/
theorem resume_noId_suspension_unlocatable_witness :
    resume suspendedRunWithTail stubSandbox standardPolicy ()
      ⟨"", .approved, none⟩ =
      some (.error "Operation  not found in run") :=
  resume_noId_suspension_unlocatable.1 suspendedRunWithTail stubSandbox
    standardPolicy () .approved none rfl (by decide)

/-- C9 counterexample: a run suspended on an id-less operation stores the
empty string as `pendingApproval.operationId` — yet a resume call for
that run does not necessarily fail: supplying the id of a *different*
operation (here the already-executed `message` with id `a`) is accepted,
and a denied decision drives the run to `completed`.  The claim's "every
subsequent resume call for that run fails with an operation-not-found
error; such a run can never be resumed" is false. -/
theorem resume_noId_any_matching_id_accepted :
    (suspendedRunNoId.pendingApproval.map (·.operationId)) = some ""
    ∧ (resume suspendedRunNoId stubSandbox standardPolicy ()
        ⟨"a", .denied, none⟩).map (fun x => x.map (fun rr => rr.status)) =
      some (.ok .completed) :=
  ⟨rfl, rfl⟩

/-- C1 (code bug): resuming an approved run does *not* bypass the policy
check at the pending index.  `RunService.resume` re-runs `executeRun` on
`operations.slice(pendingIndex)` unchanged, so the policy re-evaluates
the gated operation, emits a second `approvalRequired` event, and the run
suspends again instead of dispatching the operation and completing: the
approved operation is never executed. -/
theorem resume_approved_does_not_bypass_policy :
    (executeRun standardPolicy stubSandbox [approvalGatedShellOp] ()).map
        (fun r => (r.status, r.events.map Event.typeName)) =
      some (.awaitingApproval, ["approvalRequired"])
    ∧ (resume suspendedRunSingle stubSandbox standardPolicy ()
        ⟨"op1", .approved, none⟩).map
          (fun x => x.map (fun rr =>
            (rr.status, rr.newEvents.map Event.typeName))) =
      some (.ok (.awaitingApproval, ["approvalRequired"])) :=
  ⟨rfl, rfl⟩

/-- C2 (code bug): a denied resume appends exactly the claimed
`policyDenied` event (decider's reason, pending operation's type) but
then marks the run `completed` without re-entering the loop at `k + 1`:
the operations after the pending one are never evaluated, leaving a
completed run with 2 events for 3 operations. -/
theorem resume_denied_drops_remaining_operations :
    opsWithTail.length = 3
    ∧ suspendedRunWithTail.events.length = 1
    ∧ (resume suspendedRunWithTail stubSandbox standardPolicy ()
        ⟨"op1", .denied, some "no"⟩).map
          (fun x => x.map (fun rr =>
            (rr.status, rr.newEvents, rr.run.events.length))) =
      some (.ok (.completed,
        [Event.policyDenied (some "op1") "shell" "no" none], 2)) :=
  ⟨rfl, rfl, rfl⟩

end AgentSpaces
